import Mathlib

/-!
Shallow embedding of the session-info YAML-subset parser found in
`packages/runtime/src/addon.cpp` (functions `SplitLines`, `Trim`,
`LeadingIndent`, `PeekNextLine`, `TryParseInt64`, `TryParseDouble`,
`ParseScalarToJs`, `AppendToArray`, `SetObjectProperty`,
`ParseSessionYamlToJs`), together with theorems settling the frozen
claims about that parser.

Modelling conventions:
* C++ `std::string` values are modelled as `List Char`; the characters that
  appear in session documents are ASCII, so byte-level and character-level
  views coincide on all inputs of interest.  Keys and scalar strings stored
  in the result tree are packaged as Lean `String`s.
* The N-API value sink (`napi_create_object`, `napi_set_property`,
  `napi_set_element`, ...) is modelled by the pure tree type `Value`:
  `napi_set_property` keeps the position of an existing key and appends a
  fresh key at the end, and `napi_set_element` at index `length` appends.
* The C++ tree builder mutates containers through `napi_value` handles held
  in its context stack.  Because every mutation targets the container of the
  top stack entry (or a freshly created node), the stack is a path into the
  tree, and we model it as a zipper: each `Frame` carries the container
  being populated plus the instruction (`Attach`) for folding it back into
  its parent when the context is popped.  The C++ code links a child into
  its parent at creation time and the parent is untouched while the child
  is above it on the stack, so deferring the link to pop time produces the
  same tree.
* `double` values are represented by the literal text accepted by `strtod`;
  no claim depends on the numeric value of a double, only on acceptance.
  Acceptance is modelled completely, including the `errno == ERANGE` check
  of the source: the exact rational value of the literal is compared against
  the IEEE-754 binary64 range.  A parse overflows when the value reaches the
  rounding midpoint `2^1024 - 2^970` above the largest finite double, and
  underflows when the value is non-zero, tiny after rounding (below the
  midpoint `(2^54 - 1) * 2^(-1076)` under the smallest normal) and not
  exactly representable on the subnormal grid `k * 2^(-1074)` (C-locale
  `strtod` verified to set `ERANGE` in exactly these cases).
-/

namespace SessionYaml

/-- Tagged value tree produced by the parser, mirroring the N-API values the
C++ code builds: null, boolean, 64-bit integer, double, string, ordered
object, ordered array. -/
inductive Value where
  | null : Value
  | bool (b : Bool) : Value
  | int (n : Int) : Value
  | double (lit : String) : Value
  | str (s : String) : Value
  | obj (fields : List (String × Value)) : Value
  | arr (items : List Value) : Value
deriving Repr

/-- White-space test matching C `isspace` in the default locale, as used by
`Trim` in the source. -/
def isCSpace (c : Char) : Bool :=
  c = ' ' || c = '\t' || c = '\n' || c = '\x0b' || c = '\x0c' || c = '\r'

/-- Embedding of `Trim`: drop leading and trailing `isspace` characters. -/
def trimChars (value : List Char) : List Char :=
  ((value.dropWhile isCSpace).reverse.dropWhile isCSpace).reverse

/-- Embedding of `LeadingIndent`: the number of leading space or tab
characters (the C++ function returns an `int`). -/
def LeadingIndent (value : List Char) : Int :=
  ((value.takeWhile fun c => c = ' ' || c = '\t').length : Int)

/-- Loop body of `SplitLines`: walk the characters, skip `\r`, terminate the
current line at `\n`, and flush the trailing fragment at the end. -/
def splitLinesGo : List Char → List Char → List (List Char) → List (List Char)
  | [], current, acc => acc ++ [current]
  | ch :: rest, current, acc =>
    if ch = '\r' then splitLinesGo rest current acc
    else if ch = '\n' then splitLinesGo rest [] (acc ++ [current])
    else splitLinesGo rest (current ++ [ch]) acc

/-- Embedding of `SplitLines`. -/
def SplitLines (text : List Char) : List (List Char) :=
  splitLinesGo text [] []

/-- Result record of `PeekNextLine` (`NextLineInfo` in the source). -/
structure NextLineInfo where
  found : Bool
  indent : Int
  starts_with_dash : Bool
deriving Repr, DecidableEq

/-- Embedding of `PeekNextLine`: first non-blank line at or after the start
position, reported with its leading indent and whether its trimmed text
starts with a dash. -/
def PeekNextLine : List (List Char) → NextLineInfo
  | [] => ⟨false, 0, false⟩
  | l :: rest =>
    let t := trimChars l
    if t = [] then PeekNextLine rest
    else ⟨true, LeadingIndent l, t.head? = some '-'⟩

/-- Position split at the first `:` of a line, mirroring
`item_text.find(':')` / `substr(0, colon)` / `substr(colon + 1)`. -/
def firstColonSplit (s : List Char) : Option (List Char × List Char) :=
  match s.findIdx? (fun c => c = ':') with
  | none => none
  | some i => some (s.take i, s.drop (i + 1))

/-- Numeric value of a base-10 digit list, most significant first. -/
def digitsVal (digits : List Char) : Int :=
  digits.foldl (fun acc c => acc * 10 + ((c.toNat : Int) - 48)) 0

/-- Behaviour of C `strtoll(value, &end, 10)` followed by the source's
success checks: skip leading white space, take an optional sign, consume a
non-empty digit run; fail when no digit was consumed (`end == value`), when
characters remain (`*end != 0`), or when the value leaves the 64-bit signed
range (`errno == ERANGE`, with `LLONG_MIN = -9223372036854775808` and
`LLONG_MAX = 9223372036854775807`). -/
def strtollBase10 (s : List Char) : Option Int :=
  let afterWs := s.dropWhile isCSpace
  let signed : Bool × List Char :=
    match afterWs with
    | '-' :: r => (true, r)
    | '+' :: r => (false, r)
    | r => (false, r)
  let digits := signed.2.takeWhile Char.isDigit
  let rest := signed.2.dropWhile Char.isDigit
  if digits = [] then none
  else if rest ≠ [] then none
  else
    let n : Int := if signed.1 then -(digitsVal digits) else digitsVal digits
    if n < -9223372036854775808 ∨ 9223372036854775807 < n then none else some n

/-- Hexadecimal digit test for the `strtod` hex-float form. -/
def isHexDigitChar (c : Char) : Bool :=
  c.isDigit || ('a' ≤ c && c ≤ 'f') || ('A' ≤ c && c ≤ 'F')

/-- ASCII lower-casing used for the case-insensitive `inf`/`nan` forms of
`strtod`. -/
def toLowerAscii (c : Char) : Char :=
  if 'A' ≤ c ∧ c ≤ 'Z' then Char.ofNat (c.toNat + 32) else c

/-- Numeric value (as a natural number) of a base-10 digit list, most
significant first. -/
def digitsNatVal (digits : List Char) : Nat :=
  digits.foldl (fun acc c => acc * 10 + (c.toNat - 48)) 0

/-- Numeric value of one hexadecimal digit. -/
def hexDigitVal (c : Char) : Nat :=
  if c.isDigit then c.toNat - 48
  else if 'a' ≤ c ∧ c ≤ 'f' then c.toNat - 87
  else c.toNat - 55

/-- Numeric value of a base-16 digit list, most significant first. -/
def hexDigitsNatVal (digits : List Char) : Nat :=
  digits.foldl (fun acc c => acc * 16 + hexDigitVal c) 0

/-- Decimal exponent part of a `strtod` subject sequence: nothing (exponent
`0`), or `e`/`E`, an optional sign, and a non-empty digit run consuming the
rest; anything else is a syntax failure. -/
def parseExpTail (s : List Char) : Option Int :=
  match s with
  | [] => some 0
  | c :: r =>
    if c = 'e' ∨ c = 'E' then
      let neg : Bool := match r with
        | '-' :: _ => true
        | _ => false
      let r2 := match r with
        | '+' :: t => t
        | '-' :: t => t
        | t => t
      if r2.takeWhile Char.isDigit ≠ [] ∧ r2.dropWhile Char.isDigit = [] then
        some (if neg then -(digitsVal (r2.takeWhile Char.isDigit))
              else digitsVal (r2.takeWhile Char.isDigit))
      else none
    else none

/-- Binary exponent part of a `strtod` hex subject sequence: nothing
(exponent `0`), or `p`/`P`, an optional sign, and a non-empty decimal digit
run consuming the rest. -/
def parsePExpTail (s : List Char) : Option Int :=
  match s with
  | [] => some 0
  | c :: r =>
    if c = 'p' ∨ c = 'P' then
      let neg : Bool := match r with
        | '-' :: _ => true
        | _ => false
      let r2 := match r with
        | '+' :: t => t
        | '-' :: t => t
        | t => t
      if r2.takeWhile Char.isDigit ≠ [] ∧ r2.dropWhile Char.isDigit = [] then
        some (if neg then -(digitsVal (r2.takeWhile Char.isDigit))
              else digitsVal (r2.takeWhile Char.isDigit))
      else none
    else none

/-- Decimal form of a `strtod` subject sequence covering the whole input:
digits with an optional period (at least one digit overall) and an optional
decimal exponent.  On success returns `(M, E)` with the literal's exact
value being `M * 10^E` (sign handled by the caller). -/
def parseDecimal (s : List Char) : Option (Nat × Int) :=
  let intPart := s.takeWhile Char.isDigit
  let r1 := s.dropWhile Char.isDigit
  match r1 with
  | '.' :: r2 =>
    let fracPart := r2.takeWhile Char.isDigit
    let r3 := r2.dropWhile Char.isDigit
    if intPart = [] ∧ fracPart = [] then none
    else
      match parseExpTail r3 with
      | some e => some (digitsNatVal (intPart ++ fracPart), e - (fracPart.length : Int))
      | none => none
  | _ =>
    if intPart = [] then none
    else
      match parseExpTail r1 with
      | some e => some (digitsNatVal intPart, e)
      | none => none

/-- Hexadecimal form of a `strtod` subject sequence covering the whole
input: `0x`/`0X`, hex digits with an optional period (at least one digit
overall) and an optional binary exponent.  On success returns `(M, E)` with
the literal's exact value being `M * 2^E`. -/
def parseHexFloat (s : List Char) : Option (Nat × Int) :=
  match s with
  | '0' :: x :: r =>
    if x = 'x' ∨ x = 'X' then
      let intPart := r.takeWhile isHexDigitChar
      let r1 := r.dropWhile isHexDigitChar
      match r1 with
      | '.' :: r2 =>
        let fracPart := r2.takeWhile isHexDigitChar
        let r3 := r2.dropWhile isHexDigitChar
        if intPart = [] ∧ fracPart = [] then none
        else
          match parsePExpTail r3 with
          | some p => some (hexDigitsNatVal (intPart ++ fracPart), p - 4 * (fracPart.length : Int))
          | none => none
      | _ =>
        if intPart = [] then none
        else
          match parsePExpTail r1 with
          | some p => some (hexDigitsNatVal intPart, p)
          | none => none
    else none
  | _ => none

/-- Range error of `strtod` for the exact non-negative value `M * 10^E` of
a decimal subject sequence: overflow when the value reaches the rounding
midpoint `2^1024 - 2^970` above the largest finite binary64 value (a tie
rounds to even, hence to infinity), underflow when the value is non-zero,
below the midpoint `(2^54 - 1) * 2^(-1076)` between the largest value that
rounds to a subnormal and the smallest normal (tininess after rounding, a
tie rounding to the even, normal, neighbour), and not exactly a multiple of
`2^(-1074)` (an exactly representable subnormal is not a range error). -/
def decERange (M : Nat) (E : Int) : Bool :=
  if M = 0 then false
  else if 0 ≤ E then decide (2 ^ 1024 - 2 ^ 970 ≤ M * 10 ^ E.toNat)
  else if (2 ^ 1024 - 2 ^ 970) * 10 ^ (-E).toNat ≤ M then true
  else if M * 2 ^ 1076 < (2 ^ 54 - 1) * 10 ^ (-E).toNat then
    decide (¬ M * 2 ^ 1074 % 10 ^ (-E).toNat = 0)
  else false

/-- Range error of `strtod` for the exact non-negative value `M * 2^E` of a
hexadecimal subject sequence, with the same overflow midpoint, underflow
midpoint and subnormal-exactness rule as `decERange`. -/
def hexERange (M : Nat) (E : Int) : Bool :=
  if M = 0 then false
  else if 0 ≤ E then decide (2 ^ 1024 - 2 ^ 970 ≤ M * 2 ^ E.toNat)
  else if (2 ^ 1024 - 2 ^ 970) * 2 ^ (-E).toNat ≤ M then true
  else if M * 2 ^ 1076 < (2 ^ 54 - 1) * 2 ^ (-E).toNat then
    decide (¬ ((-E).toNat ≤ 1074 ∨ M % 2 ^ ((-E).toNat - 1074) = 0))
  else false

/-- Character allowed in the parenthesised n-char-sequence of a `nan(...)`
form: digits, letters and underscore. -/
def isNanSeqChar (c : Char) : Bool :=
  c.isDigit || c.isAlpha || c = '_'

/-- Infinity and not-a-number forms of a `strtod` subject sequence covering
the whole input (case-insensitive `inf`, `infinity`, `nan`,
`nan(n-char-sequence)`). -/
def acceptsInfNan (s : List Char) : Bool :=
  let l := s.map toLowerAscii
  l = "inf".toList || l = "infinity".toList ||
  (match l with
   | 'n' :: 'a' :: 'n' :: rest =>
     rest = [] ||
     (match rest with
      | '(' :: inner =>
        match inner.getLast? with
        | some ')' => inner.dropLast.all isNanSeqChar
        | _ => false
      | _ => false)
   | _ => false)

/-- Full-consumption acceptance of C `strtod` in the default locale: after
optional white space and an optional sign the rest of the input must be a
complete decimal, hexadecimal, infinity or NaN subject sequence. -/
def strtodAccepts (s : List Char) : Bool :=
  let afterWs := s.dropWhile isCSpace
  let body := match afterWs with
    | '+' :: t => t
    | '-' :: t => t
    | t => t
  (parseDecimal body).isSome || (parseHexFloat body).isSome || acceptsInfNan body

/-- Range error (`errno == ERANGE`) of C `strtod` on a fully-consumed
input: the exact rational magnitude of the decimal or hexadecimal subject
sequence overflows or underflows the binary64 range (the sign does not
affect the range, and the infinity and NaN forms never set a range
error). -/
def strtodERange (s : List Char) : Bool :=
  let afterWs := s.dropWhile isCSpace
  let body := match afterWs with
    | '+' :: t => t
    | '-' :: t => t
    | t => t
  match parseDecimal body with
  | some (M, E) => decERange M E
  | none =>
    match parseHexFloat body with
    | some (M, E) => hexERange M E
    | none => false

/-- Hex-literal rejection test written identically in `TryParseInt64` and
`TryParseDouble`: `value.size() > 2 && value[0] == '0' && (value[1] == 'x'
|| value[1] == 'X')`. -/
def HexReject (value : List Char) : Bool :=
  decide (2 < value.length) &&
  (value.head? = some '0' : Bool) &&
  ((value[1]? = some 'x' : Bool) || (value[1]? = some 'X' : Bool))

/-- Embedding of `TryParseInt64`: fail on empty input and on `0x`/`0X`
prefixed input, otherwise run the base-10 `strtoll` parse with full
consumption and 64-bit range checks. -/
def TryParseInt64 (value : List Char) : Option Int :=
  if value = [] then none
  else if HexReject value then none
  else strtollBase10 value

/-- Embedding of `TryParseDouble` (success only; the parsed double itself is
represented by the accepted literal): fail on empty input and on `0x`/`0X`
prefixed input, otherwise require `strtod` to consume the entire text
without a range error. -/
def TryParseDouble (value : List Char) : Bool :=
  if value = [] then false
  else if HexReject value then false
  else strtodAccepts value && !strtodERange value

/-- Embedding of `ParseScalarToJs`: empty text gives null; text quoted at
both ends (length at least 2) gives the inner text with no escape
processing; `true`/`false` give booleans; then the 64-bit integer parse,
then the double parse, and finally the original text as a string. -/
def ParseScalarToJs (value : List Char) : Value :=
  if value = [] then Value.null
  else if 2 ≤ value.length ∧ value.head? = some '"' ∧ value.getLast? = some '"' then
    Value.str ⟨(value.drop 1).dropLast⟩
  else if value = "true".toList then Value.bool true
  else if value = "false".toList then Value.bool false
  else
    match TryParseInt64 value with
    | some n => Value.int n
    | none =>
      if TryParseDouble value then Value.double ⟨value⟩ else Value.str ⟨value⟩

/-- In-progress container held by a context stack entry; the `is_array`
flag of the C++ `Context` struct is the constructor choice here. -/
inductive Container where
  | obj (fields : List (String × Value)) : Container
  | arr (items : List Value) : Container
deriving Repr

/-- Instruction for folding a finished child container back into its parent
container when the child's context is popped.  In the C++ code the link is
made through the N-API handle at creation time; see the zipper discussion in
the file header. -/
inductive Attach where
  | append : Attach
  | key (k : String) : Attach
deriving Repr, DecidableEq

/-- Context stack entry (`struct Context { int indent; bool is_array;
napi_value container; }`), with the container held by value and the
deferred parent link. -/
structure Frame where
  indent : Int
  cont : Container
  attach : Attach
deriving Repr

/-- Object update as performed by `napi_set_property` on a plain JS object
with a string key: an existing key keeps its position and gets the new
value, a fresh key is appended.  (The JS engine's special enumeration order
for integer-like keys is not modelled; no claim exercises such keys.) -/
def objInsert (fields : List (String × Value)) (k : String) (v : Value) :
    List (String × Value) :=
  if fields.any (fun p => p.1 = k) then
    fields.map (fun p => if p.1 = k then (k, v) else p)
  else fields ++ [(k, v)]

/-- View an in-progress container as a finished tree value. -/
def Container.toValue : Container → Value
  | .obj fields => Value.obj fields
  | .arr items => Value.arr items

/-- Fold a finished child value into its parent container: `AppendToArray`
for array parents, `SetObjectProperty` for object parents.  The mismatched
pairings never arise during a parse (each frame's attach instruction is
created together with its parent) and leave the parent unchanged. -/
def attachInto (parent : Container) (a : Attach) (child : Value) : Container :=
  match a, parent with
  | .append, .arr items => .arr (items ++ [child])
  | .key k, .obj fields => .obj (objInsert fields k child)
  | _, _ => parent

/-- Pop one context: fold the top frame's container into the frame below. -/
def mergeTop (c p : Frame) : Frame :=
  { p with cont := attachInto p.cont c.attach (Container.toValue c.cont) }

/-- Loop body of the pop phase, with the current top frame held apart so the
recursion is structural: `while (stack.size() > 1 && indent <=
stack.back().indent) stack.pop_back();`. -/
def popPhaseGo (ind : Int) (top : Frame) : List Frame → List Frame
  | [] => [top]
  | p :: rest =>
    if ind ≤ top.indent then popPhaseGo ind (mergeTop top p) rest
    else top :: p :: rest

/-- Pop phase of the tree builder for a line of indent `ind`. -/
def popPhase (ind : Int) : List Frame → List Frame
  | [] => []
  | c :: rest => popPhaseGo ind c rest

/-- Per-line branch logic of `ParseSessionYamlToJs` after the blank-line
skip and the pop phase, acting on the current (top) context.  `trimmed` is
the trimmed line, `indent` its leading indent, `rest` the lines after it
(for `PeekNextLine(lines, i + 1)`). -/
def stepTop (trimmed : List Char) (indent : Int) (rest : List (List Char))
    (current : Frame) (below : List Frame) : List Frame :=
  if trimmed.head? = some '-' then
    match current.cont with
    | Container.obj _ => current :: below
    | Container.arr items =>
      let item_text := trimChars (trimmed.drop 1)
      if item_text = [] then
        let next_info := PeekNextLine rest
        let next_is_array := next_info.found && next_info.starts_with_dash
        let child : Container := if next_is_array then .arr [] else .obj []
        let child_indent : Int := if next_info.found then next_info.indent else indent + 1
        Frame.mk child_indent child Attach.append :: current :: below
      else
        match firstColonSplit item_text with
        | some (before, after) =>
          let key : String := ⟨trimChars before⟩
          let raw_value := trimChars after
          let next_info := PeekNextLine rest
          if raw_value = [] then
            let next_is_array := next_info.found && next_info.starts_with_dash
            let child : Container := if next_is_array then .arr [] else .obj []
            let child_indent : Int := if next_info.found then next_info.indent else indent + 1
            Frame.mk child_indent child (Attach.key key)
              :: Frame.mk indent (Container.obj []) Attach.append
              :: current :: below
          else
            let value := ParseScalarToJs raw_value
            if next_info.found ∧ indent < next_info.indent then
              Frame.mk indent (Container.obj (objInsert [] key value)) Attach.append
                :: current :: below
            else
              { current with cont := Container.arr (items ++ [Value.obj (objInsert [] key value)]) }
                :: below
        | none =>
          { current with cont := Container.arr (items ++ [ParseScalarToJs item_text]) }
            :: below
  else
    match current.cont with
    | Container.arr _ => current :: below
    | Container.obj fields =>
      match firstColonSplit trimmed with
      | none => current :: below
      | some (before, after) =>
        let key : String := ⟨trimChars before⟩
        let raw_value := trimChars after
        if raw_value = [] then
          let next_info := PeekNextLine rest
          let next_is_array := next_info.found && next_info.starts_with_dash
          let child : Container := if next_is_array then .arr [] else .obj []
          let child_indent : Int := if next_info.found then next_info.indent else indent + 1
          Frame.mk child_indent child (Attach.key key) :: current :: below
        else
          { current with cont := Container.obj (objInsert fields key (ParseScalarToJs raw_value)) }
            :: below

/-- Process one raw line of the main loop: skip blank lines, otherwise run
the pop phase and then the branch logic on the current context. -/
def stepLine (raw_line : List Char) (rest : List (List Char))
    (stack : List Frame) : List Frame :=
  match trimChars raw_line with
  | [] => stack
  | tc :: tcs =>
    match popPhase (LeadingIndent raw_line) stack with
    | [] => []
    | current :: below =>
      stepTop (tc :: tcs) (LeadingIndent raw_line) rest current below

/-- Main loop of `ParseSessionYamlToJs` over the split lines; the tail of
the list plays the role of `lines[i + 1 ..]` for lookahead. -/
def processLines : List (List Char) → List Frame → List Frame
  | [], stack => stack
  | line :: rest, stack => processLines rest (stepLine line rest stack)

/-- Root context pushed before the loop: `Context{-1, false, root}` with
`root` a fresh empty object. -/
def rootFrame : Frame :=
  ⟨-1, Container.obj [], Attach.append⟩

/-- Loop body for folding the remaining stack into the bottom (root)
container once the lines are exhausted; in the C++ code the links already
exist, here the deferred attaches are performed. -/
def collapseGo (top : Frame) : List Frame → Container
  | [] => top.cont
  | p :: rest => collapseGo (mergeTop top p) rest

/-- Fold a whole context stack into its bottom container. -/
def collapse : List Frame → Container
  | [] => Container.obj []
  | c :: rest => collapseGo c rest

/-- Embedding of `ParseSessionYamlToJs`: split the input into lines, run
the stack machine from the root context, and read off the root object. -/
def ParseSessionYamlToJs (session : String) : Value :=
  Container.toValue (collapse (processLines (SplitLines session.toList) [rootFrame]))

/-- Input with every carriage-return character removed. -/
def removeCR (s : List Char) : List Char :=
  s.filter (fun c => c ≠ '\r')

/-- Line splitting as the specification words it for carriage-return-free
text: a line-feed terminates a line, and the trailing fragment after the
last line-feed (possibly empty) is emitted as a final line, so the result is
never empty. -/
def splitSpec : List Char → List (List Char)
  | [] => [[]]
  | c :: rest =>
    if c = '\n' then [] :: splitSpec rest
    else
      match splitSpec rest with
      | [] => [[c]]
      | l :: ls => (c :: l) :: ls

/-- Prefix the first line of a split with pending characters (helper for
relating the accumulator loop of `SplitLines` to `splitSpec`). -/
def consHead (pre : List Char) : List (List Char) → List (List Char)
  | [] => [pre]
  | l :: ls => (pre ++ l) :: ls

theorem removeCR_nil : removeCR [] = [] := rfl

theorem removeCR_cons (c : Char) (t : List Char) :
    removeCR (c :: t) = if c = '\r' then removeCR t else c :: removeCR t := by
  by_cases h : c = '\r' <;> simp [removeCR, h]

theorem splitSpec_ne_nil (s : List Char) : splitSpec s ≠ [] := by
  induction s with
  | nil => simp [splitSpec]
  | cons c rest ih =>
    rw [splitSpec]
    split
    · simp
    · split <;> simp

theorem splitSpec_exists_cons (s : List Char) :
    ∃ l ls, splitSpec s = l :: ls := by
  cases h : splitSpec s with
  | nil => exact absurd h (splitSpec_ne_nil s)
  | cons l ls => exact ⟨l, ls, rfl⟩

theorem splitLinesGo_eq (text : List Char) : ∀ current acc,
    splitLinesGo text current acc
      = acc ++ consHead current (splitSpec (removeCR text)) := by
  induction text with
  | nil =>
    intro current acc
    simp [splitLinesGo, removeCR_nil, splitSpec, consHead]
  | cons ch rest ih =>
    intro current acc
    by_cases hr : ch = '\r'
    · subst hr
      rw [splitLinesGo, removeCR_cons]
      simp [ih]
    · by_cases hn : ch = '\n'
      · subst hn
        rw [splitLinesGo, removeCR_cons]
        obtain ⟨l, ls, hS⟩ := splitSpec_exists_cons (removeCR rest)
        simp only [if_neg (by decide : ¬ ('\n' : Char) = '\r'), if_neg hr,
          if_pos rfl, ih, hS, splitSpec, if_pos rfl, consHead]
        simp
      · rw [splitLinesGo, removeCR_cons]
        obtain ⟨l, ls, hS⟩ := splitSpec_exists_cons (removeCR rest)
        simp only [if_neg hr, if_neg hn, ih, hS, splitSpec, consHead]
        simp [if_neg hn, hS, consHead]

theorem SplitLines_eq_splitSpec (s : List Char) :
    SplitLines s = splitSpec (removeCR s) := by
  obtain ⟨l, ls, hS⟩ := splitSpec_exists_cons (removeCR s)
  rw [SplitLines, splitLinesGo_eq, hS]
  simp [consHead]

/-- Hex-literal test as the claim words it: length greater than 2 and the
first two characters equal to `0x` or `0X`. -/
def specHexLiteral (v : List Char) : Bool :=
  decide (2 < v.length) &&
  (decide (v.take 2 = ['0', 'x']) || decide (v.take 2 = ['0', 'X']))

/-- Scalar inference exactly as the claim orders it: quoted string with the
inner text kept verbatim, then `true`/`false`, then the base-10 signed
64-bit integer parse guarded by the hex-literal rejection, then the double
parse with the same rejection, then the original text as a string. -/
def specScalarRules (v : List Char) : Value :=
  if 2 ≤ v.length ∧ v.head? = some '"' ∧ v.getLast? = some '"' then
    Value.str ⟨(v.drop 1).dropLast⟩
  else if v = "true".toList then Value.bool true
  else if v = "false".toList then Value.bool false
  else
    match (if specHexLiteral v then none else strtollBase10 v) with
    | some n => Value.int n
    | none =>
      if (if specHexLiteral v then false else strtodAccepts v && !strtodERange v) then
        Value.double ⟨v⟩
      else Value.str ⟨v⟩

theorem HexReject_eq_spec (v : List Char) : HexReject v = specHexLiteral v := by
  match v with
  | [] => rfl
  | [a] => rfl
  | [a, b] => rfl
  | a :: b :: c :: t =>
    have h2 : 2 < (a :: b :: c :: t).length := by
      simp only [List.length_cons]
      omega
    rw [Bool.eq_iff_iff]
    simp only [HexReject, specHexLiteral, Bool.and_eq_true, Bool.or_eq_true,
      decide_eq_true_eq, List.head?_cons, List.getElem?_cons_succ,
      List.getElem?_cons_zero, List.take_succ_cons, List.take_zero,
      Option.some.injEq, List.cons.injEq, and_true]
    tauto

theorem TryParseInt64_eq_spec (v : List Char) (h : v ≠ []) :
    TryParseInt64 v = (if specHexLiteral v then none else strtollBase10 v) := by
  rw [TryParseInt64, if_neg h, HexReject_eq_spec]

theorem TryParseDouble_eq_spec (v : List Char) (h : v ≠ []) :
    TryParseDouble v = (if specHexLiteral v then false
      else strtodAccepts v && !strtodERange v) := by
  rw [TryParseDouble, if_neg h, HexReject_eq_spec]

/-- Stack shape invariant: the bottom entry is the root context, an object
container at indent `-1`. -/
def lastIsRootObj (st : List Frame) : Prop :=
  ∃ pre fs, st = pre ++ [Frame.mk (-1) (Container.obj fs) Attach.append]

theorem lastIsRootObj_ne_nil {st : List Frame} (h : lastIsRootObj st) : st ≠ [] := by
  obtain ⟨pre, fs, rfl⟩ := h
  simp

theorem lastIsRootObj_cons {st : List Frame} (x : Frame) (h : lastIsRootObj st) :
    lastIsRootObj (x :: st) := by
  obtain ⟨pre, fs, rfl⟩ := h
  exact ⟨x :: pre, fs, rfl⟩

theorem lastIsRootObj_tail {x y : Frame} {rest : List Frame}
    (h : lastIsRootObj (x :: y :: rest)) : lastIsRootObj (y :: rest) := by
  obtain ⟨pre, fs, heq⟩ := h
  cases pre with
  | nil => simp at heq
  | cons a pre2 =>
    rw [List.cons_append, List.cons.injEq] at heq
    exact ⟨pre2, fs, heq.2⟩

theorem lastIsRootObj_singleton {c : Frame} (h : lastIsRootObj [c]) :
    ∃ fs, c = Frame.mk (-1) (Container.obj fs) Attach.append := by
  obtain ⟨pre, fs, heq⟩ := h
  cases pre with
  | nil =>
    simp only [List.nil_append, List.cons.injEq] at heq
    exact ⟨fs, heq.1⟩
  | cons a pre2 =>
    rw [List.cons_append, List.cons.injEq] at heq
    exact absurd heq.2 (by simp)

theorem lastIsRootObj_replaceHead {c : Frame} {below : List Frame} (x : Frame)
    (h : lastIsRootObj (c :: below)) (hb : below ≠ []) :
    lastIsRootObj (x :: below) := by
  obtain ⟨pre, fs, heq⟩ := h
  cases pre with
  | nil =>
    simp only [List.nil_append, List.cons.injEq] at heq
    exact absurd heq.2 hb
  | cons a pre2 =>
    rw [List.cons_append, List.cons.injEq] at heq
    exact ⟨x :: pre2, fs, by rw [List.cons_append, heq.2]⟩

theorem mergeTop_rootShaped (c : Frame) (fs : List (String × Value)) :
    ∃ fs2, mergeTop c (Frame.mk (-1) (Container.obj fs) Attach.append)
      = Frame.mk (-1) (Container.obj fs2) Attach.append := by
  cases ha : c.attach with
  | append => exact ⟨fs, by simp [mergeTop, attachInto, ha]⟩
  | key k =>
    exact ⟨objInsert fs k (Container.toValue c.cont), by simp [mergeTop, attachInto, ha]⟩

theorem lastIsRootObj_mergeTop {p : Frame} {rest : List Frame} (c : Frame)
    (h : lastIsRootObj (p :: rest)) : lastIsRootObj (mergeTop c p :: rest) := by
  obtain ⟨pre, fs, heq⟩ := h
  cases pre with
  | nil =>
    simp only [List.nil_append, List.cons.injEq] at heq
    obtain ⟨fs2, h2⟩ := mergeTop_rootShaped c fs
    exact ⟨[], fs2, by rw [heq.2, heq.1, h2]; rfl⟩
  | cons a pre2 =>
    rw [List.cons_append, List.cons.injEq] at heq
    exact ⟨mergeTop c p :: pre2, fs, by rw [List.cons_append, heq.2]⟩

theorem popPhaseGo_inv (ind : Int) (rest : List Frame) :
    ∀ top : Frame, lastIsRootObj (top :: rest) →
      lastIsRootObj (popPhaseGo ind top rest) := by
  induction rest with
  | nil => intro top h; simpa [popPhaseGo] using h
  | cons p rest ih =>
    intro top h
    rw [popPhaseGo]
    split
    · exact ih (mergeTop top p) (lastIsRootObj_mergeTop top (lastIsRootObj_tail h))
    · exact h

theorem popPhase_inv (ind : Int) {st : List Frame} (h : lastIsRootObj st) :
    lastIsRootObj (popPhase ind st) := by
  cases st with
  | nil => exact absurd rfl (lastIsRootObj_ne_nil h)
  | cons c rest => exact popPhaseGo_inv ind rest c h

theorem stepTop_inv (trimmed : List Char) (indent : Int) (rest : List (List Char))
    (current : Frame) (below : List Frame)
    (h : lastIsRootObj (current :: below)) :
    lastIsRootObj (stepTop trimmed indent rest current below) := by
  cases below with
  | cons b bs =>
    rw [stepTop]
    split
    · split
      · exact h
      · dsimp only
        split
        · exact lastIsRootObj_cons _ h
        · split
          · split
            · exact lastIsRootObj_cons _ (lastIsRootObj_cons _ h)
            · split
              · exact lastIsRootObj_cons _ h
              · exact lastIsRootObj_replaceHead _ h (by simp)
          · exact lastIsRootObj_replaceHead _ h (by simp)
    · split
      · exact h
      · split
        · exact h
        · dsimp only
          split
          · exact lastIsRootObj_cons _ h
          · exact lastIsRootObj_replaceHead _ h (by simp)
  | nil =>
    obtain ⟨fs, hc⟩ := lastIsRootObj_singleton h
    rw [stepTop]
    split
    · split
      · exact h
      · next heq => rw [hc] at heq; simp at heq
    · split
      · exact h
      · split
        · exact h
        · dsimp only
          split
          · exact lastIsRootObj_cons _ h
          · exact ⟨[], _, by rw [hc]; rfl⟩

theorem stepLine_inv (raw_line : List Char) (rest : List (List Char))
    {stack : List Frame} (h : lastIsRootObj stack) :
    lastIsRootObj (stepLine raw_line rest stack) := by
  rw [stepLine]
  split
  · exact h
  · have hp := popPhase_inv (LeadingIndent raw_line) h
    split
    · next heq => rw [heq] at hp; exact absurd rfl (lastIsRootObj_ne_nil hp)
    · next current below heq =>
      rw [heq] at hp
      exact stepTop_inv _ _ _ _ _ hp

theorem processLines_inv (lines : List (List Char)) :
    ∀ {stack : List Frame}, lastIsRootObj stack →
      lastIsRootObj (processLines lines stack) := by
  induction lines with
  | nil => intro stack h; exact h
  | cons line rest ih =>
    intro stack h
    exact ih (stepLine_inv line rest h)

theorem collapseGo_obj (rest : List Frame) :
    ∀ top : Frame, lastIsRootObj (top :: rest) →
      ∃ fs, collapseGo top rest = Container.obj fs := by
  induction rest with
  | nil =>
    intro top h
    obtain ⟨fs, hc⟩ := lastIsRootObj_singleton h
    exact ⟨fs, by rw [collapseGo, hc]⟩
  | cons p rest ih =>
    intro top h
    rw [collapseGo]
    exact ih (mergeTop top p) (lastIsRootObj_mergeTop top (lastIsRootObj_tail h))

theorem parse_root_obj (session : String) :
    ∃ fs, ParseSessionYamlToJs session = Value.obj fs := by
  have hinv : lastIsRootObj (processLines (SplitLines session.toList) [rootFrame]) :=
    processLines_inv _ ⟨[], [], rfl⟩
  rw [ParseSessionYamlToJs]
  cases hst : processLines (SplitLines session.toList) [rootFrame] with
  | nil => rw [hst] at hinv; exact absurd rfl (lastIsRootObj_ne_nil hinv)
  | cons c rest =>
    rw [hst] at hinv
    obtain ⟨fs, hc⟩ := collapseGo_obj rest c hinv
    exact ⟨fs, by rw [collapse, hc, Container.toValue]⟩

theorem stepLine_blank (raw_line : List Char) (rest : List (List Char))
    (stack : List Frame) (h : trimChars raw_line = []) :
    stepLine raw_line rest stack = stack := by
  rw [stepLine, h]

theorem processLines_blank (lines : List (List Char)) :
    ∀ stack : List Frame, (∀ l ∈ lines, trimChars l = []) →
      processLines lines stack = stack := by
  induction lines with
  | nil => intro stack _; rfl
  | cons line rest ih =>
    intro stack h
    rw [processLines, stepLine_blank line rest stack (h line (by simp))]
    exact ih stack (fun l hl => h l (by simp [hl]))

theorem lastIsRootObj_getLast {st : List Frame} (h : lastIsRootObj st) :
    ∃ fs, st.getLast? = some (Frame.mk (-1) (Container.obj fs) Attach.append) := by
  obtain ⟨pre, fs, rfl⟩ := h
  exact ⟨fs, by simp⟩

theorem stepLine_eq_stepTop (raw_line : List Char) (rest : List (List Char))
    (stack : List Frame) (current : Frame) (below : List Frame)
    (hne : trimChars raw_line ≠ [])
    (hpop : popPhase (LeadingIndent raw_line) stack = current :: below) :
    stepLine raw_line rest stack
      = stepTop (trimChars raw_line) (LeadingIndent raw_line) rest current below := by
  rw [stepLine]
  cases htc : trimChars raw_line with
  | nil => exact absurd htc hne
  | cons a l => rw [hpop]

/-- C1: for every input text the parse result is an object at the root,
and an input whose lines are all blank (in particular the empty string)
parses to the empty object. -/
theorem c1_root_always_object (s : String) :
    (∃ fs, ParseSessionYamlToJs s = Value.obj fs)
    ∧ ((SplitLines s.toList).all (fun l => trimChars l = []) = true →
        ParseSessionYamlToJs s = Value.obj []) := by
  refine ⟨parse_root_obj s, fun hblank => ?_⟩
  have hall : ∀ l ∈ SplitLines s.toList, trimChars l = [] := by
    intro l hl
    simpa using List.all_eq_true.mp hblank l hl
  rw [ParseSessionYamlToJs, processLines_blank _ _ hall]
  rfl

/-- Witness for C1 at the empty input: the blank-lines hypothesis holds and
the result is the empty object. -/
theorem c1_witness : ParseSessionYamlToJs "" = Value.obj [] :=
  (c1_root_always_object "").2 (by decide)

/-- C3: the line splitter is equivalent to removing every carriage return
and then cutting at each line feed with the trailing fragment (possibly
empty) kept, and the two concrete examples of the claim hold; the splitter
is a total function, so it cannot fail. -/
theorem c3_line_splitter (s : List Char) :
    SplitLines s = splitSpec (removeCR s)
    ∧ SplitLines "a\nb".toList = ["a".toList, "b".toList]
    ∧ SplitLines "a\n".toList = ["a".toList, []] :=
  ⟨SplitLines_eq_splitSpec s, rfl, rfl⟩

/-- C4: the stack starts as exactly the root entry (indent `-1`, object),
the pop phase removes the top context exactly while the stack has more than
one entry and the line indent is at most the top indent, and after any
number of processed lines the stack is non-empty with the root entry still
at the bottom. -/
theorem c4_context_stack_invariant (text : String) (k : Nat) (ind : Int)
    (c p f : Frame) (rest : List Frame) :
    [rootFrame] = [Frame.mk (-1) (Container.obj []) Attach.append]
    ∧ popPhase ind (c :: p :: rest)
        = (if ind ≤ c.indent then popPhase ind (mergeTop c p :: rest) else c :: p :: rest)
    ∧ popPhase ind [f] = [f]
    ∧ processLines ((SplitLines text.toList).take k) [rootFrame] ≠ []
    ∧ ∃ fs, (processLines ((SplitLines text.toList).take k) [rootFrame]).getLast?
        = some (Frame.mk (-1) (Container.obj fs) Attach.append) := by
  have hinv : lastIsRootObj (processLines ((SplitLines text.toList).take k) [rootFrame]) :=
    processLines_inv _ ⟨[], [], rfl⟩
  refine ⟨rfl, ?_, rfl, lastIsRootObj_ne_nil hinv, lastIsRootObj_getLast hinv⟩
  rw [popPhase, popPhaseGo]
  split
  · rw [popPhase]
  · rfl

/-- C5: a structurally mismatched line — a dash line over a non-array
context, a non-dash line over an array context, or a non-dash line with no
colon — leaves the stack exactly as the pop phase produced it: no container
mutation, no push, no error. -/
theorem c5_mismatch_line_skipped (raw_line : List Char) (rest : List (List Char))
    (stack : List Frame) (current : Frame) (below : List Frame)
    (hne : trimChars raw_line ≠ [])
    (hpop : popPhase (LeadingIndent raw_line) stack = current :: below)
    (hmis : ((trimChars raw_line).head? = some '-' ∧ ∃ fs, current.cont = Container.obj fs)
      ∨ ((trimChars raw_line).head? ≠ some '-' ∧ ∃ xs, current.cont = Container.arr xs)
      ∨ ((trimChars raw_line).head? ≠ some '-' ∧ firstColonSplit (trimChars raw_line) = none)) :
    stepLine raw_line rest stack = popPhase (LeadingIndent raw_line) stack := by
  rw [stepLine_eq_stepTop raw_line rest stack current below hne hpop, hpop]
  rcases hmis with ⟨hd, fs, hcont⟩ | ⟨hd, xs, hcont⟩ | ⟨hd, hcolon⟩
  · rw [stepTop, if_pos hd, hcont]
  · rw [stepTop, if_neg hd, hcont]
  · rw [stepTop, if_neg hd]
    cases hcont : current.cont with
    | arr items => rfl
    | obj fields => rw [hcolon]

/-- Witness for C5: the line `x` (no dash, no colon) over the root stack is
skipped, leaving the pop-phase stack unchanged. -/
theorem c5_witness :
    stepLine "x".toList [] [rootFrame] = popPhase (LeadingIndent "x".toList) [rootFrame] :=
  c5_mismatch_line_skipped "x".toList [] [rootFrame] rootFrame [] (by decide) rfl
    (Or.inr (Or.inr ⟨by decide, by decide⟩))

/-- C7: the parser is deterministic — it reads only its input, so equal
input texts give structurally equal value trees. -/
theorem c7_deterministic (s t : String) (h : s = t) :
    ParseSessionYamlToJs s = ParseSessionYamlToJs t := by
  rw [h]

/-- Witness for C7 at a concrete input. -/
theorem c7_witness :
    ParseSessionYamlToJs "count: 3" = ParseSessionYamlToJs "count: 3" :=
  c7_deterministic "count: 3" "count: 3" rfl

/-- C8: a mapping line whose trimmed content starts with the colon is not
skipped: the key is the empty string, and the line inserts an entry under
the empty-string key into the current object container — a scalar when the
value text is non-empty, a freshly pushed lookahead-typed child container
when it is empty; in particular `: 5` parses to an object mapping the empty
key to the integer `5` (and `:` alone to an empty child object). -/
theorem c8_leading_colon_empty_key (raw_line : List Char) (rest : List (List Char))
    (stack : List Frame) (current : Frame) (below : List Frame)
    (fields : List (String × Value)) (tail : List Char)
    (htrim : trimChars raw_line = ':' :: tail)
    (hpop : popPhase (LeadingIndent raw_line) stack = current :: below)
    (hcont : current.cont = Container.obj fields) :
    stepLine raw_line rest stack
      = (if trimChars tail = [] then
          Frame.mk
            (if (PeekNextLine rest).found then (PeekNextLine rest).indent
             else LeadingIndent raw_line + 1)
            (if (PeekNextLine rest).found && (PeekNextLine rest).starts_with_dash then
              Container.arr [] else Container.obj [])
            (Attach.key "") :: current :: below
        else
          { current with
            cont := Container.obj (objInsert fields ""
              (ParseScalarToJs (trimChars tail))) } :: below)
    ∧ ParseSessionYamlToJs ": 5" = Value.obj [("", Value.int 5)]
    ∧ ParseSessionYamlToJs ":" = Value.obj [("", Value.obj [])] := by
  refine ⟨?_, rfl, rfl⟩
  rw [stepLine_eq_stepTop raw_line rest stack current below (by rw [htrim]; simp) hpop,
    htrim, stepTop, if_neg (by simp), hcont]
  have hsplit : firstColonSplit (':' :: tail) = some ([], tail) := by
    simp [firstColonSplit, List.findIdx?_cons]
  rw [hsplit]
  dsimp only
  by_cases hraw : trimChars tail = []
  · rw [if_pos hraw, if_pos hraw]
    rfl
  · rw [if_neg hraw, if_neg hraw]
    rfl

/-- Witness for C8 at the lines `: 5` (non-empty value, scalar entry) and
`:` (empty value, empty child container), both over the root stack. -/
theorem c8_witness :
    ParseSessionYamlToJs ": 5" = Value.obj [("", Value.int 5)]
    ∧ ParseSessionYamlToJs ":" = Value.obj [("", Value.obj [])] :=
  ⟨(c8_leading_colon_empty_key ": 5".toList [] [rootFrame] rootFrame [] [] " 5".toList
      (by decide) rfl rfl).2.1,
   (c8_leading_colon_empty_key ":".toList [] [rootFrame] rootFrame [] [] []
      (by decide) rfl rfl).2.2⟩

/-- C9: the two-character value of two double quotes is inferred as the
empty string, not null; null arises only for the empty text, and no
non-empty text is ever inferred as null. -/
theorem c9_two_quotes_empty_string (v : List Char) (h : v ≠ []) :
    ParseScalarToJs ['"', '"'] = Value.str ""
    ∧ ParseScalarToJs [] = Value.null
    ∧ ParseScalarToJs v ≠ Value.null := by
  refine ⟨rfl, rfl, ?_⟩
  rw [ParseScalarToJs, if_neg h]
  split
  · simp
  · split
    · simp
    · split
      · simp
      · split
        · simp
        · split
          · simp
          · simp

/-- Witness for C9 at the non-empty text `x`. -/
theorem c9_witness :
    ParseScalarToJs ['"', '"'] = Value.str ""
    ∧ ParseScalarToJs [] = Value.null
    ∧ ParseScalarToJs "x".toList ≠ Value.null :=
  c9_two_quotes_empty_string "x".toList (by decide)

/-- C2: on every non-empty trimmed value the scalar inferencer agrees with
the claim's ordered rules (quoted string verbatim, `true`/`false`, hex-
rejected base-10 64-bit integer parse, hex-rejected double parse, string
fallback), and `0x1A` in particular is inferred as the string `0x1A`. -/
theorem c2_scalar_inference_rules (v : List Char) (h1 : v ≠ [])
    (_h2 : trimChars v = v) :
    ParseScalarToJs v = specScalarRules v
    ∧ ParseScalarToJs "0x1A".toList = Value.str "0x1A" := by
  refine ⟨?_, rfl⟩
  rw [ParseScalarToJs, specScalarRules, if_neg h1, TryParseInt64_eq_spec v h1,
    TryParseDouble_eq_spec v h1]

/-- Witness for C2 at the trimmed non-empty value `0x1A`. -/
theorem c2_witness :
    ParseScalarToJs "0x1A".toList = specScalarRules "0x1A".toList
    ∧ ParseScalarToJs "0x1A".toList = Value.str "0x1A" :=
  c2_scalar_inference_rules "0x1A".toList (by decide) (by decide)

/-- C10: a `key:` line with empty value whose lookahead finds a next
non-blank line pushes the child context at the lookahead indent; that very
indent then satisfies the pop condition, so the pop phase of the next
non-blank line folds the still-empty child container under the key before
anything is added to it; `a:` followed by `b: 1` gives `{a: {}, b: 1}`. -/
theorem c10_empty_value_context_dies (raw_line : List Char) (rest : List (List Char))
    (stack : List Frame) (current : Frame) (below : List Frame)
    (fs : List (String × Value)) (before after : List Char) (ni : Int) (d : Bool)
    (hd : (trimChars raw_line).head? ≠ some '-')
    (hsplit : firstColonSplit (trimChars raw_line) = some (before, after))
    (hraw : trimChars after = [])
    (hpop : popPhase (LeadingIndent raw_line) stack = current :: below)
    (hcont : current.cont = Container.obj fs)
    (hpeek : PeekNextLine rest = ⟨true, ni, d⟩)
    (_hle : ni ≤ LeadingIndent raw_line) :
    stepLine raw_line rest stack
      = Frame.mk ni (if d then Container.arr [] else Container.obj [])
          (Attach.key ⟨trimChars before⟩) :: current :: below
    ∧ popPhase ni (stepLine raw_line rest stack)
      = popPhase ni ({ current with
          cont := Container.obj (objInsert fs ⟨trimChars before⟩
            (Container.toValue (if d then Container.arr [] else Container.obj []))) } :: below)
    ∧ ParseSessionYamlToJs "a:\nb: 1" = Value.obj [("a", Value.obj []), ("b", Value.int 1)] := by
  have hne : trimChars raw_line ≠ [] := by
    intro hnil
    rw [hnil] at hsplit
    exact absurd hsplit (by simp [firstColonSplit])
  have hstep : stepLine raw_line rest stack
      = Frame.mk ni (if d then Container.arr [] else Container.obj [])
          (Attach.key ⟨trimChars before⟩) :: current :: below := by
    rw [stepLine_eq_stepTop raw_line rest stack current below hne hpop,
      stepTop, if_neg hd, hcont, hsplit]
    dsimp only
    rw [if_pos hraw, hpeek]
    simp
  refine ⟨hstep, ?_, rfl⟩
  rw [hstep, popPhase, popPhaseGo, if_pos (le_refl ni), popPhase]
  have hmerge : mergeTop
      (Frame.mk ni (if d then Container.arr [] else Container.obj [])
        (Attach.key ⟨trimChars before⟩)) current
      = { current with
          cont := Container.obj (objInsert fs ⟨trimChars before⟩
            (Container.toValue (if d then Container.arr [] else Container.obj []))) } := by
    rw [mergeTop, hcont]
    rfl
  rw [hmerge]

/-- Witness for C10 at the input `a:` over `b: 1`: the lookahead indent `0`
is at most the line indent `0`, the child context is pushed and the next
pop phase folds the empty object under the key `a`. -/
theorem c10_witness :
    stepLine "a:".toList ["b: 1".toList] [rootFrame]
      = Frame.mk 0 (if false then Container.arr [] else Container.obj [])
          (Attach.key ⟨trimChars "a".toList⟩) :: rootFrame :: []
    ∧ popPhase 0 (stepLine "a:".toList ["b: 1".toList] [rootFrame])
      = popPhase 0 ({ rootFrame with
          cont := Container.obj (objInsert [] ⟨trimChars "a".toList⟩
            (Container.toValue (if false then Container.arr [] else Container.obj []))) } :: [])
    ∧ ParseSessionYamlToJs "a:\nb: 1" = Value.obj [("a", Value.obj []), ("b", Value.int 1)] :=
  c10_empty_value_context_dies "a:".toList ["b: 1".toList] [rootFrame] rootFrame []
    [] "a".toList "".toList 0 false (by decide) (by decide) (by decide) rfl rfl
    (by decide) (by decide)

/-- C6: evaluation of the parser on the claim's `Drivers` input.  The child
array context for `Drivers` is pushed at the lookahead indent `0`, the first
dash line at indent `0` immediately pops it, every dash line is then skipped
because the current context is the root object, and the `UserName` lines
land in the root (the second overwriting the first).  The result is
`{ Drivers: [], UserName: "Sam" }`, not the nested tree the claim states:
the array stays empty. -/
theorem c6_drivers_input_evaluation :
    ParseSessionYamlToJs "Drivers:\n- CarIdx: 0\n  UserName: \"Bob\"\n- CarIdx: 1\n  UserName: \"Sam\""
      = Value.obj [("Drivers", Value.arr []), ("UserName", Value.str "Sam")]
    ∧ ParseSessionYamlToJs "Drivers:\n- CarIdx: 0\n  UserName: \"Bob\"\n- CarIdx: 1\n  UserName: \"Sam\""
      ≠ Value.obj [("Drivers", Value.arr
          [Value.obj [("CarIdx", Value.int 0), ("UserName", Value.str "Bob")],
           Value.obj [("CarIdx", Value.int 1), ("UserName", Value.str "Sam")]])] := by
  refine ⟨rfl, ?_⟩
  intro h
  rw [(rfl : ParseSessionYamlToJs "Drivers:\n- CarIdx: 0\n  UserName: \"Bob\"\n- CarIdx: 1\n  UserName: \"Sam\""
      = Value.obj [("Drivers", Value.arr []), ("UserName", Value.str "Sam")])] at h
  injection h with h1
  injection h1 with h2 h3
  exact List.noConfusion h3

end SessionYaml
